import Mathlib

/-!
Verification of the Personaplex real-time voice pipeline
(client hooks `usePersonaplexAudio.ts` and `usePersonaplexSocket.ts`).

Shallow embedding conventions:
* Audio samples and clock times are modelled as exact rationals `ℚ`
  (the source works on IEEE doubles / Float32; all the properties below
  are about the arithmetic structure of the code, stated exactly).
* Millisecond timestamps (`Date.now()`) are modelled as integers `ℤ`.
* Byte buffers are `List Nat`, each entry one byte.
* React refs and `useState` cells become explicit fields of state records;
  every event handler becomes a step function on that record, and a run of
  the system is a fold of a list of events over the initial state.
-/

/-! ## Resampler (`downsample`, usePersonaplexAudio.ts lines 10–29) -/

/--
`downsample input sourceRate targetRate` — direct embedding of the source:

    const ratio = sourceRate / targetRate;
    const outputLength = Math.floor(input.length / ratio);
    for (let i = 0; i < outputLength; i++) {
      const srcIndex = i * ratio;
      const srcIndexFloor = Math.floor(srcIndex);
      const srcIndexCeil = Math.min(srcIndexFloor + 1, input.length - 1);
      const frac = srcIndex - srcIndexFloor;
      output[i] = input[srcIndexFloor] * (1 - frac) + input[srcIndexCeil] * frac;
    }

Out-of-bounds reads (impossible for positive rates, as proved below) are
given the default value 0.
-/
def downsample (input : List ℚ) (sourceRate targetRate : ℚ) : List ℚ :=
  let ratio := sourceRate / targetRate
  let outputLength := (⌊(input.length : ℚ) / ratio⌋).toNat
  (List.range outputLength).map fun (i : ℕ) =>
    let srcIndex := (i : ℚ) * ratio
    let srcIndexFloor := (⌊srcIndex⌋).toNat
    let srcIndexCeil := min (srcIndexFloor + 1) (input.length - 1)
    let frac := srcIndex - ((⌊srcIndex⌋ : ℤ) : ℚ)
    input.getD srcIndexFloor 0 * (1 - frac) + input.getD srcIndexCeil 0 * frac

/-! ## FrameCodec (`playAudioChunk` decode branch, lines 111–124) -/

/-- Two little-endian bytes as a signed 16-bit integer (`Int16Array` view). -/
def toInt16 (lo hi : Nat) : Int :=
  let u := lo % 256 + 256 * (hi % 256)
  if u < 32768 then (u : Int) else (u : Int) - 65536

/-- Four little-endian bytes as a 32-bit word (the bit pattern an
`Float32Array` view reads; IEEE semantics of the bits are not modelled). -/
def word32 (a b c d : Nat) : Nat :=
  a % 256 + 256 * (b % 256) + 65536 * (c % 256) + 16777216 * (d % 256)

/-- Groups a byte list into consecutive pairs (any trailing odd byte dropped). -/
def chunkPairs : List Nat → List (Nat × Nat)
  | lo :: hi :: rest => (lo, hi) :: chunkPairs rest
  | _ => []

/-- Groups a byte list into consecutive quadruples. -/
def chunkQuads : List Nat → List (Nat × Nat × Nat × Nat)
  | a :: b :: c :: d :: rest => (a, b, c, d) :: chunkQuads rest
  | _ => []

/-- Result of classifying one inbound frame. -/
inductive DecodedChunk where
  | floats (words : List Nat)
  | int16s (samples : List ℚ)
  | dropped
  deriving DecidableEq, Repr

/--
The classification / decode prefix of `playAudioChunk` (lines 113–124):

    if (data.byteLength % 4 === 0) { samples = new Float32Array(data); }
    else if (data.byteLength % 2 === 0) {
      const int16 = new Int16Array(data);
      ... samples[i] = int16[i] / 32768;
    } else { console.warn(...); return; }
-/
def playAudioChunkDecode (data : List Nat) : DecodedChunk :=
  if data.length % 4 = 0 then
    .floats ((chunkQuads data).map fun q => word32 q.1 q.2.1 q.2.2.1 q.2.2.2)
  else if data.length % 2 = 0 then
    .int16s ((chunkPairs data).map fun p => ((toInt16 p.1 p.2 : ℚ) / 32768))
  else
    .dropped

/-! ## PlaybackScheduler (queue refs + `playNextInQueue`, lines 49–51, 71–99,
`playAudioChunk` enqueue part, lines 126–139, `stopCapture`, lines 200–223) -/

/-- Scheduler state: the refs of the hook plus an observation log.
`queue` holds the durations of the queued `AudioBuffer`s, `started` logs each
`source.start(startTime)` call as `(startTime, duration)`, `aiNotifs` logs the
arguments of `onAiSpeakingChange` calls, `sinkOpen` is whether the playback
`AudioContext` is still open. -/
structure Sched where
  queue : List ℚ
  isPlaying : Bool
  nextPlayTime : ℚ
  started : List (ℚ × ℚ)
  aiNotifs : List Bool
  sinkOpen : Bool
  deriving DecidableEq, Repr

def initSched : Sched :=
  { queue := [], isPlaying := false, nextPlayTime := 0,
    started := [], aiNotifs := [], sinkOpen := true }

/-- `playNextInQueue` (lines 71–99); `now` is `ctx.currentTime` at the call. -/
def playNextInQueue (now : ℚ) (s : Sched) : Sched :=
  match s.queue with
  | [] =>
      { s with isPlaying := false, aiNotifs := s.aiNotifs ++ [false] }
  | d :: rest =>
      let startTime := max now s.nextPlayTime
      { s with queue := rest,
               nextPlayTime := startTime + d,
               started := s.started ++ [(startTime, d)],
               isPlaying := true,
               aiNotifs := s.aiNotifs ++ [true] }

/-- The enqueue tail of `playAudioChunk` (lines 133–139): push the buffer,
and if nothing is playing fire `onAiSpeakingChange(true)` and start playback. -/
def enqueueChunk (d : ℚ) (now : ℚ) (s : Sched) : Sched :=
  let s' := { s with queue := s.queue ++ [d] }
  if s'.isPlaying then s'
  else playNextInQueue now { s' with aiNotifs := s'.aiNotifs ++ [true] }

/-- `playAudioChunk` (lines 103–142): decode the frame, or drop it; a decoded
frame becomes a buffer of duration `samples / sampleRate` and is enqueued. -/
def playAudioChunkStep (data : List Nat) (sampleRate now : ℚ) (s : Sched) : Sched :=
  match playAudioChunkDecode data with
  | .floats ws => enqueueChunk ((ws.length : ℚ) / sampleRate) now s
  | .int16s ss => enqueueChunk ((ss.length : ℚ) / sampleRate) now s
  | .dropped => s

/-- The playback-related effects of `stopCapture` (lines 200–223): the queue is
cleared and the playback context closed. Note the source resets neither
`isPlayingRef` nor `nextPlayTimeRef`. -/
def stopCaptureSched (s : Sched) : Sched :=
  { s with queue := [], sinkOpen := false }

/-- Externally triggered scheduler events: an inbound frame (`onmessage` →
`playAudioChunk`), a buffer finishing (`source.onended` → `playNextInQueue`),
and teardown (`stopCapture`). -/
inductive SchedOp where
  | chunk (data : List Nat) (sampleRate now : ℚ)
  | ended (now : ℚ)
  | stop
  deriving DecidableEq, Repr

def schedStep : SchedOp → Sched → Sched
  | .chunk data sampleRate now, s => playAudioChunkStep data sampleRate now s
  | .ended now, s => playNextInQueue now s
  | .stop, s => stopCaptureSched s

def runSched (ops : List SchedOp) : Sched :=
  ops.foldl (fun s op => schedStep op s) initSched

/-! ## Transport (`usePersonaplexSocket.ts`) -/

/-- `PersonaplexConnectionStatus` (lines 3–7). -/
inductive ConnStatus where
  | disconnected
  | connecting
  | connected
  | error
  deriving DecidableEq, Repr

/-- The `readyState` phases a WebSocket held in `socketRef` can be in.
(The ref is nulled before the socket ever reaches CLOSING/CLOSED.) -/
inductive WsPhase where
  | connecting
  | opened
  deriving DecidableEq, Repr

/-- Transport state: the hook's ref and state cells plus observation logs.
`pendingClose` counts close events that `ws.close()` has scheduled on sockets
carrying the hook's close listener but that have not yet been delivered;
`sent` logs the byte buffers written by successful `send` calls. -/
structure SockState where
  socket : Option WsPhase
  status : ConnStatus
  errorMessage : Option String
  connectNotifs : Nat
  disconnectNotifs : Nat
  pendingClose : Nat
  sent : List (List Nat)
  deriving DecidableEq, Repr

def initSock : SockState :=
  { socket := none, status := .disconnected, errorMessage := none,
    connectNotifs := 0, disconnectNotifs := 0, pendingClose := 0, sent := [] }

/-- `connect` (lines 26–60): no-op when the current socket is OPEN; otherwise
sets Connecting, clears the error, creates a fresh socket and stores it. -/
def connectStep (s : SockState) : SockState :=
  if s.socket = some .opened then s
  else
    { s with status := .connecting, errorMessage := none,
             socket := some .connecting }

/-- Delivery of the `open` event (lines 37–40) on the stored socket. -/
def openEventStep (s : SockState) : SockState :=
  match s.socket with
  | some .connecting =>
      { s with socket := some .opened, status := .connected,
               connectNotifs := s.connectNotifs + 1 }
  | _ => s

/-- Delivery of a pending `close` event: the listener registered by `connect`
(lines 42–46) nulls the ref, sets Disconnected and calls `onDisconnect`. -/
def closeEventStep (s : SockState) : SockState :=
  if s.pendingClose > 0 then
    { s with pendingClose := s.pendingClose - 1, socket := none,
             status := .disconnected,
             disconnectNotifs := s.disconnectNotifs + 1 }
  else s

/-- `disconnect` (lines 62–70): if a socket is stored, `close()` it (which
schedules a later close event on it, since its listener stays attached) and
null the ref; then unconditionally set Disconnected, clear the error and call
`onDisconnect`. -/
def disconnectStep (s : SockState) : SockState :=
  let s1 :=
    match s.socket with
    | some _ => { s with pendingClose := s.pendingClose + 1, socket := none }
    | none => s
  { s1 with status := .disconnected, errorMessage := none,
            disconnectNotifs := s1.disconnectNotifs + 1 }

/-- `send` (lines 72–82): fail without side effects unless the stored socket
exists and is OPEN; otherwise write the bytes. Returns the boolean result. -/
def sendStep (data : List Nat) (s : SockState) : Bool × SockState :=
  match s.socket with
  | some .opened => (true, { s with sent := s.sent ++ [data] })
  | _ => (false, s)

/-- Externally triggered transport events. -/
inductive SockOp where
  | connect
  | openEv
  | closeEv
  | disconnect
  | send (data : List Nat)
  deriving DecidableEq, Repr

def sockStep : SockOp → SockState → SockState
  | .connect, s => connectStep s
  | .openEv, s => openEventStep s
  | .closeEv, s => closeEventStep s
  | .disconnect, s => disconnectStep s
  | .send data, s => (sendStep data s).2

def runSock (ops : List SockOp) : SockState :=
  ops.foldl (fun s op => sockStep op s) initSock

/-! ## VoiceActivityDetector (lines 57–69, 163–174, 225–234) -/

/-- VAD state: `lastSpeakTime` (`lastSpeakTimeRef`, ms), the speaking flag
(`isUserSpeakingRef`), and a log of `onUserSpeakingChange` notifications. -/
structure VadState where
  lastSpeakTime : ℤ
  isUserSpeaking : Bool
  userNotifs : List Bool
  deriving DecidableEq, Repr

/-- The mean of the squared samples. The source compares
`Math.sqrt(rmsSq) > 0.01`, which for a nonnegative radicand is equivalent to
`rmsSq > 1/10000` (proved in `sqrt_gt_hundredth_iff` below); the step function
uses the squared comparison to stay executable. An empty block gives `0/0 = 0`
here and `NaN > 0.01 = false` in JS — loud in neither. -/
def rmsSq (input : List ℚ) : ℚ :=
  (input.map fun x => x * x).sum / (input.length : ℚ)

/-- The VAD part of the `onaudioprocess` handler (lines 163–174): a loud block
records `now` and, when currently silent, transitions to Speaking with a
notification. -/
def processBlock (now : ℤ) (input : List ℚ) (s : VadState) : VadState :=
  if rmsSq input > 1 / 10000 then
    if s.isUserSpeaking then { s with lastSpeakTime := now }
    else
      { s with lastSpeakTime := now, isUserSpeaking := true,
               userNotifs := s.userNotifs ++ [true] }
  else s

/-- One firing of the `checkSilence` interval (lines 226–232). -/
def checkSilenceStep (now : ℤ) (s : VadState) : VadState :=
  if now - s.lastSpeakTime > 300 then
    if s.isUserSpeaking then
      { s with isUserSpeaking := false, userNotifs := s.userNotifs ++ [false] }
    else s
  else s

/-! ## CaptureEngine start (`startCapture`, lines 144–198) -/

inductive MicPermission where
  | unknown
  | granted
  | denied
  deriving DecidableEq, Repr

/-- Capture resources: which of the hook's refs hold a live object. -/
structure CaptureState where
  micPermission : MicPermission
  stream : Bool
  audioContext : Bool
  sourceNode : Bool
  processorNode : Bool
  deriving DecidableEq, Repr

def initCapture : CaptureState :=
  { micPermission := .unknown, stream := false, audioContext := false,
    sourceNode := false, processorNode := false }

/-- `startCapture` (lines 144–198) with the outcome of `getUserMedia` made
explicit. Permission denial throws at the very first step, so the `catch`
branch (lines 193–197) runs with no resource yet assigned: it logs, sets
`micPermission` to "denied" and returns `false`. On grant the `try` body
allocates the stream, context, source and processor and returns `true`. -/
def startCapture (permissionGranted : Bool) (s : CaptureState) :
    Bool × CaptureState :=
  if permissionGranted then
    (true, { micPermission := .granted, stream := true, audioContext := true,
             sourceNode := true, processorNode := true })
  else
    (false, { s with micPermission := .denied })
/-! ## Helper lemmas -/

/-- A step other than the `open` event can neither produce an OPEN stored
socket nor write bytes, starting from a state with no OPEN socket and an
empty send log. -/
theorem sockStep_preserves_no_open (op : SockOp) (hop : op ≠ SockOp.openEv)
    (s : SockState) (hsock : s.socket ≠ some WsPhase.opened)
    (hsent : s.sent = []) :
    (sockStep op s).socket ≠ some WsPhase.opened ∧ (sockStep op s).sent = [] := by
  cases op with
  | connect =>
      simp only [sockStep, connectStep]
      split <;> simp_all
  | openEv => exact absurd rfl hop
  | closeEv =>
      simp only [sockStep, closeEventStep]
      split <;> simp_all
  | disconnect =>
      simp only [sockStep, disconnectStep]
      cases h : s.socket <;> simp_all
  | send data =>
      simp only [sockStep, sendStep]
      cases h : s.socket with
      | none => simp_all
      | some ph => cases ph <;> simp_all

/-- While no `open` event has ever been delivered, the stored socket is never
OPEN and nothing has been written. -/
theorem runSock_no_open_aux (ops : List SockOp) :
    ∀ s : SockState, SockOp.openEv ∉ ops → s.socket ≠ some WsPhase.opened →
      s.sent = [] →
      (ops.foldl (fun s op => sockStep op s) s).socket ≠ some WsPhase.opened
      ∧ (ops.foldl (fun s op => sockStep op s) s).sent = [] := by
  induction ops with
  | nil => intro s _ hsock hsent; exact ⟨hsock, hsent⟩
  | cons op rest ih =>
      intro s hmem hsock hsent
      have hop : op ≠ SockOp.openEv := by
        intro h; exact hmem (h ▸ List.mem_cons_self _ _)
      have hrest : SockOp.openEv ∉ rest := fun h => hmem (List.mem_cons_of_mem _ h)
      simp only [List.foldl_cons]
      obtain ⟨h1, h2⟩ := sockStep_preserves_no_open op hop s hsock hsent
      exact ih _ hrest h1 h2

/-! ## Claim theorems -/

/-- `send` on a state whose stored socket is not OPEN fails and is the
identity on the state. -/
theorem sendStep_not_open (s : SockState)
    (hsock : s.socket ≠ some WsPhase.opened) (data : List Nat) :
    sendStep data s = (false, s) := by
  obtain ⟨sock, st, em, cn, dn, pc, sent⟩ := s
  cases sock with
  | none => rfl
  | some ph =>
      cases ph with
      | connecting => rfl
      | opened => exact absurd rfl hsock

/-- C5: `send(bytes)` returns false and writes no outbound bytes whenever the
channel is not open — in particular in every run in which no successful open
ever happened — and returns true and appends exactly the given bytes to the
outbound log exactly when the stored socket is OPEN. -/
theorem send_requires_open_spec :
    (∀ (ops : List SockOp) (data : List Nat), SockOp.openEv ∉ ops →
        (sendStep data (runSock ops)).1 = false
        ∧ (sendStep data (runSock ops)).2 = runSock ops
        ∧ (runSock ops).sent = [])
    ∧ (∀ (s : SockState) (data : List Nat),
        ((sendStep data s).1 = true ↔ s.socket = some WsPhase.opened))
    ∧ (∀ (s : SockState) (data : List Nat), (sendStep data s).1 = true →
        (sendStep data s).2.sent = s.sent ++ [data]) := by
  refine ⟨?_, ?_, ?_⟩
  · intro ops data hops
    obtain ⟨h1, h2⟩ := runSock_no_open_aux ops initSock hops (by simp [initSock]) rfl
    rw [sendStep_not_open (runSock ops) h1 data]
    exact ⟨rfl, rfl, h2⟩
  · intro s data
    obtain ⟨sock, st, em, cn, dn, pc, sent⟩ := s
    cases sock with
    | none => simp [sendStep]
    | some ph => cases ph <;> simp [sendStep]
  · intro s data
    obtain ⟨sock, st, em, cn, dn, pc, sent⟩ := s
    cases sock with
    | none => simp [sendStep]
    | some ph => cases ph <;> simp [sendStep]

/-- C5 witness: a `send` immediately after `connect` (before any open event)
fails and writes nothing. -/
theorem send_requires_open_spec_witness :
    (sendStep [7] (runSock [SockOp.connect])).1 = false
    ∧ (runSock [SockOp.connect]).sent = [] :=
  ⟨(send_requires_open_spec.1 [SockOp.connect] [7] (by decide)).1,
   (send_requires_open_spec.1 [SockOp.connect] [7] (by decide)).2.2⟩

/-- C10: `send` never modifies the connection status, the error message, the
stored socket reference, the notification counts or the pending close events;
its only effect is appending the bytes to the outbound log, and only in the
success case. -/
theorem send_frame_spec (s : SockState) (data : List Nat) :
    (sendStep data s).2.socket = s.socket
    ∧ (sendStep data s).2.status = s.status
    ∧ (sendStep data s).2.errorMessage = s.errorMessage
    ∧ (sendStep data s).2.connectNotifs = s.connectNotifs
    ∧ (sendStep data s).2.disconnectNotifs = s.disconnectNotifs
    ∧ (sendStep data s).2.pendingClose = s.pendingClose
    ∧ (sendStep data s).2.sent
        = s.sent ++ (cond (sendStep data s).1 [data] []) := by
  obtain ⟨sock, st, em, cn, dn, pc, sent⟩ := s
  cases sock with
  | none => simp [sendStep]
  | some ph => cases ph <;> simp [sendStep]

/-- C4 as stated is false: in the run `connect; open; disconnect; close-event`
there is exactly one `disconnect()` call, yet `onDisconnect` fires twice —
once synchronously inside `disconnect()` and once more when the channel's own
close event (triggered by the `close()` inside `disconnect()`) is delivered to
the listener installed by `connect` (lines 42–46), which the nulled ref does
not detach. -/
theorem disconnect_single_notify_cex :
    (runSock [SockOp.connect, SockOp.openEv, SockOp.disconnect,
              SockOp.closeEv]).disconnectNotifs = 2 := by
  decide

/-- C4 amended: every `disconnect()` call closes the channel if one is stored,
unconditionally sets Disconnected, clears the error, and fires `onDisconnect`
exactly once synchronously — a second consecutive call is a state-wise no-op
but fires it again; moreover, when a channel was stored, its scheduled close
event fires `onDisconnect` one more time on delivery, for two notifications
from a single disconnect of a live connection. -/
theorem disconnect_spec (s : SockState) :
    (disconnectStep s).status = ConnStatus.disconnected
    ∧ (disconnectStep s).socket = none
    ∧ (disconnectStep s).errorMessage = none
    ∧ (disconnectStep s).disconnectNotifs = s.disconnectNotifs + 1
    ∧ (disconnectStep (disconnectStep s)).disconnectNotifs
        = s.disconnectNotifs + 2
    ∧ (s.socket.isSome = true →
        (disconnectStep s).pendingClose = s.pendingClose + 1
        ∧ (closeEventStep (disconnectStep s)).disconnectNotifs
            = s.disconnectNotifs + 2) := by
  cases h : s.socket with
  | none =>
      refine ⟨?_, ?_, ?_, ?_, ?_, ?_⟩ <;>
        simp [disconnectStep, closeEventStep, h]
  | some ph =>
      refine ⟨?_, ?_, ?_, ?_, ?_, ?_⟩ <;>
        simp [disconnectStep, closeEventStep, h]

/-- C4 witness: after `connect` a socket is stored, and disconnecting then
delivering the close event yields two notifications. -/
theorem disconnect_spec_witness :
    (runSock [SockOp.connect]).socket.isSome = true
    ∧ (closeEventStep (disconnectStep (runSock [SockOp.connect]))).disconnectNotifs
        = (runSock [SockOp.connect]).disconnectNotifs + 2 :=
  ⟨by decide,
   ((disconnect_spec (runSock [SockOp.connect])).2.2.2.2.2 (by decide)).2⟩

/-- C8: when microphone access is denied, `startCapture` returns false,
sets `micPermission` to "denied", and leaves every resource ref exactly as it
was — in particular, starting from the hook's initial state, no stream, audio
context, source node or processor node is held afterwards. -/
theorem startCapture_denied_spec (s : CaptureState) :
    (startCapture false s).1 = false
    ∧ (startCapture false s).2.micPermission = MicPermission.denied
    ∧ (startCapture false s).2.stream = s.stream
    ∧ (startCapture false s).2.audioContext = s.audioContext
    ∧ (startCapture false s).2.sourceNode = s.sourceNode
    ∧ (startCapture false s).2.processorNode = s.processorNode
    ∧ (startCapture false initCapture).2
        = { micPermission := MicPermission.denied, stream := false,
            audioContext := false, sourceNode := false,
            processorNode := false } := by
  refine ⟨?_, ?_, ?_, ?_, ?_, ?_, ?_⟩ <;> simp [startCapture, initCapture]

/-- An `Int16Array` view covers `⌊bytes/2⌋` samples. -/
theorem chunkPairs_length : ∀ l : List Nat, (chunkPairs l).length = l.length / 2
  | [] => by simp [chunkPairs]
  | [_] => by simp [chunkPairs]
  | _ :: _ :: rest => by
      simp only [chunkPairs, List.length_cons]
      rw [chunkPairs_length rest]
      omega

/-- A `Float32Array` view covers `⌊bytes/4⌋` samples. -/
theorem chunkQuads_length : ∀ l : List Nat, (chunkQuads l).length = l.length / 4
  | [] => by simp [chunkQuads]
  | [_] => by simp [chunkQuads]
  | [_, _] => by simp [chunkQuads]
  | [_, _, _] => by simp [chunkQuads]
  | _ :: _ :: _ :: _ :: rest => by
      simp only [chunkQuads, List.length_cons]
      rw [chunkQuads_length rest]
      omega

/-- The `j`-th 16-bit sample is built from bytes `2j` and `2j+1`. -/
theorem chunkPairs_getD : ∀ (l : List Nat) (j : Nat), 2 * j + 1 < l.length →
    (chunkPairs l).getD j (0, 0) = (l.getD (2 * j) 0, l.getD (2 * j + 1) 0)
  | [], _, h => by simp at h
  | [_], _, h => by simp at h
  | a :: b :: rest, 0, _ => by simp [chunkPairs]
  | a :: b :: rest, j + 1, h => by
      have h' : 2 * j + 1 < rest.length := by
        simp only [List.length_cons] at h; omega
      have hL : (chunkPairs (a :: b :: rest)).getD (j + 1) (0, 0)
          = (chunkPairs rest).getD j (0, 0) := by
        simp [chunkPairs]
      have h1 : (a :: b :: rest).getD (2 * (j + 1)) 0 = rest.getD (2 * j) 0 := by
        rw [show 2 * (j + 1) = 2 * j + 1 + 1 by ring]
        rw [List.getD_cons_succ, List.getD_cons_succ]
      have h2 : (a :: b :: rest).getD (2 * (j + 1) + 1) 0
          = rest.getD (2 * j + 1) 0 := by
        rw [show 2 * (j + 1) + 1 = 2 * j + 1 + 1 + 1 by ring]
        rw [List.getD_cons_succ, List.getD_cons_succ]
      rw [hL, h1, h2, chunkPairs_getD rest j h']

/-- C2: `playAudioChunk` classifies an inbound frame by byte length, in order:
divisible by 4 decodes as `⌊n/4⌋` 32-bit float samples; else divisible by 2
decodes as `⌊n/2⌋` 16-bit signed samples, the `j`-th being the little-endian
int16 of bytes `2j, 2j+1` divided by 32768; else the frame is dropped — the
decoder yields `dropped`, the scheduler state is untouched (no playback buffer
enqueued), and the step is total (no exception). -/
theorem playAudioChunk_classify_spec (data : List Nat) (sampleRate now : ℚ)
    (s : Sched) :
    (data.length % 4 = 0 →
        ∃ ws : List Nat, playAudioChunkDecode data = DecodedChunk.floats ws
          ∧ ws.length = data.length / 4)
    ∧ (data.length % 4 ≠ 0 → data.length % 2 = 0 →
        ∃ ss : List ℚ, playAudioChunkDecode data = DecodedChunk.int16s ss
          ∧ ss.length = data.length / 2
          ∧ ∀ j : Nat, 2 * j + 1 < data.length →
              ss.getD j 0
                = (toInt16 (data.getD (2 * j) 0) (data.getD (2 * j + 1) 0) : ℚ)
                    / 32768)
    ∧ (data.length % 2 ≠ 0 →
        playAudioChunkDecode data = DecodedChunk.dropped
        ∧ playAudioChunkStep data sampleRate now s = s) := by
  refine ⟨?_, ?_, ?_⟩
  · intro h4
    refine ⟨(chunkQuads data).map fun q => word32 q.1 q.2.1 q.2.2.1 q.2.2.2,
            ?_, ?_⟩
    · simp [playAudioChunkDecode, h4]
    · simp [chunkQuads_length]
  · intro h4 h2
    refine ⟨(chunkPairs data).map fun p => ((toInt16 p.1 p.2 : ℚ) / 32768),
            ?_, ?_, ?_⟩
    · simp [playAudioChunkDecode, h4, h2]
    · simp [chunkPairs_length]
    · intro j hj
      have hj' : j < (chunkPairs data).length := by
        rw [chunkPairs_length]; omega
      rw [List.getD_eq_getElem _ _ (by simpa using hj'), List.getElem_map,
          ← List.getD_eq_getElem (chunkPairs data) (0, 0) hj',
          chunkPairs_getD data j hj]
  · intro h2
    have h4 : data.length % 4 ≠ 0 := by omega
    constructor
    · simp [playAudioChunkDecode, h4, h2]
    · simp [playAudioChunkStep, playAudioChunkDecode, h4, h2]

/-- C2 witness: a 2-byte frame decodes as one normalized int16 sample, and a
1-byte frame is dropped. -/
theorem playAudioChunk_classify_spec_witness :
    playAudioChunkDecode [1, 0] = DecodedChunk.int16s [(1 : ℚ) / 32768]
    ∧ playAudioChunkDecode [1] = DecodedChunk.dropped := by
  constructor
  · obtain ⟨ss, hss, hlen, hval⟩ :=
      (playAudioChunk_classify_spec [1, 0] 16000 0 initSched).2.1
        (by decide) (by decide)
    have h0 := hval 0 (by decide)
    rcases ss with _ | ⟨x, tl⟩
    · simp at hlen
    · rcases tl with _ | ⟨y, tl⟩
      · rw [hss]
        simp only [List.getD_cons_zero] at h0
        norm_num [toInt16] at h0
        rw [h0]
      · simp at hlen
  · exact ((playAudioChunk_classify_spec [1] 16000 0 initSched).2.2
      (by decide)).1

/-- The mean of squares is nonnegative. -/
theorem rmsSq_nonneg (input : List ℚ) : 0 ≤ rmsSq input := by
  unfold rmsSq
  apply div_nonneg
  · apply List.sum_nonneg
    intro x hx
    simp only [List.mem_map] at hx
    obtain ⟨y, _, rfl⟩ := hx
    exact mul_self_nonneg y
  · exact Nat.cast_nonneg _

/-- The loudness comparison of the source, `Math.sqrt(meanSq) > 0.01`, is
equivalent to the squared comparison `meanSq > 1/10000` the embedding uses. -/
theorem sqrt_gt_hundredth_iff (q : ℚ) :
    (1 : ℝ) / 100 < Real.sqrt (q : ℝ) ↔ (1 : ℚ) / 10000 < q := by
  rw [Real.lt_sqrt (by norm_num : (0 : ℝ) ≤ 1 / 100)]
  constructor
  · intro h
    have : ((1 : ℚ) / 10000 : ℝ) < (q : ℝ) := by
      calc ((1 : ℚ) / 10000 : ℝ) = ((1 : ℝ) / 100) ^ 2 := by norm_num
        _ < q := h
    exact_mod_cast this
  · intro h
    calc ((1 : ℝ) / 100) ^ 2 = ((1 : ℚ) / 10000 : ℝ) := by norm_num
      _ < q := by exact_mod_cast h

/-- C6: a block whose RMS loudness `sqrt(mean(sample²))` exceeds the 0.01
threshold records the current time as the last loud timestamp and, if the
state is Silent, transitions to Speaking with a notification; the periodic
silence check transitions Speaking→Silent exactly when the elapsed time since
the last loud block exceeds the 300 ms timeout, and is the identity — so the
transition never happens — before that. -/
theorem vad_spec :
    (∀ (now : ℤ) (input : List ℚ) (s : VadState),
        (1 : ℝ) / 100 < Real.sqrt ((rmsSq input : ℚ) : ℝ) →
        (processBlock now input s).lastSpeakTime = now
        ∧ (s.isUserSpeaking = false →
            processBlock now input s
              = { s with lastSpeakTime := now, isUserSpeaking := true,
                         userNotifs := s.userNotifs ++ [true] })
        ∧ (s.isUserSpeaking = true →
            processBlock now input s = { s with lastSpeakTime := now }))
    ∧ (∀ (now : ℤ) (s : VadState), 300 < now - s.lastSpeakTime →
        s.isUserSpeaking = true →
        checkSilenceStep now s
          = { s with isUserSpeaking := false,
                     userNotifs := s.userNotifs ++ [false] })
    ∧ (∀ (now : ℤ) (s : VadState), now - s.lastSpeakTime ≤ 300 →
        checkSilenceStep now s = s) := by
  refine ⟨?_, ?_, ?_⟩
  · intro now input s hloud
    have hq : (1 : ℚ) / 10000 < rmsSq input := (sqrt_gt_hundredth_iff _).1 hloud
    have hcond : rmsSq input > 1 / 10000 := hq
    refine ⟨?_, ?_, ?_⟩
    · simp only [processBlock, if_pos hcond]
      cases h : s.isUserSpeaking <;> simp [h]
    · intro h
      simp only [processBlock, if_pos hcond, h]
      simp
    · intro h
      simp only [processBlock, if_pos hcond, h]
      simp
  · intro now s helapsed hspeak
    simp only [checkSilenceStep, if_pos (by omega : now - s.lastSpeakTime > 300),
               hspeak]
    simp
  · intro now s helapsed
    simp only [checkSilenceStep,
               if_neg (by omega : ¬now - s.lastSpeakTime > 300)]

/-- C6 witness: the block `[1, 1]` has RMS 1 > 0.01; processed at t=100 while
silent it flips to Speaking, a silence check at t=400 (elapsed 300 ≤ 300) is
the identity, and one at t=401 (elapsed 301 > 300) flips back to Silent. -/
theorem vad_spec_witness :
    processBlock 100 [1, 1] { lastSpeakTime := 0, isUserSpeaking := false,
                              userNotifs := [] }
      = { lastSpeakTime := 100, isUserSpeaking := true, userNotifs := [true] }
    ∧ checkSilenceStep 400 { lastSpeakTime := 100, isUserSpeaking := true,
                             userNotifs := [true] }
      = { lastSpeakTime := 100, isUserSpeaking := true, userNotifs := [true] }
    ∧ checkSilenceStep 401 { lastSpeakTime := 100, isUserSpeaking := true,
                             userNotifs := [true] }
      = { lastSpeakTime := 100, isUserSpeaking := false,
          userNotifs := [true, false] } := by
  have hrms : rmsSq [1, 1] = 1 := by
    norm_num [rmsSq]
  have hloud : (1 : ℝ) / 100 < Real.sqrt ((rmsSq [1, 1] : ℚ) : ℝ) := by
    rw [hrms]
    push_cast
    rw [Real.sqrt_one]
    norm_num
  refine ⟨?_, ?_, ?_⟩
  · exact (vad_spec.1 100 [1, 1] _ hloud).2.1 rfl
  · exact vad_spec.2.2 400 _ (by norm_num)
  · exact vad_spec.2.1 401 _ (by norm_num) rfl

/-- A completion callback that finds the queue empty resets the playing flag
and fires `onAiSpeakingChange(false)` — and does nothing else. -/
theorem playNextInQueue_empty (now : ℚ) (s : Sched) (h : s.queue = []) :
    playNextInQueue now s
      = { s with isPlaying := false, aiNotifs := s.aiNotifs ++ [false] } := by
  obtain ⟨q, ip, npt, st, an, so⟩ := s
  simp only at h
  subst h
  rfl

/-- C7 as stated is false: there is no liveness/generation guard, so an
`onended` completion callback scheduled before `stopCapture` is not a no-op
when it fires afterwards. Concretely: play one decoded frame, tear down, then
deliver the pending completion callback — the state changes (the playing flag
is reset and an `onAiSpeakingChange(false)` notification fires). -/
theorem stopCapture_callback_noop_cex :
    schedStep (SchedOp.ended 1)
        (runSched [SchedOp.chunk [0, 0, 0, 0] 16000 0, SchedOp.stop])
      ≠ runSched [SchedOp.chunk [0, 0, 0, 0] 16000 0, SchedOp.stop] := by
  intro h
  have hq : (runSched [SchedOp.chunk [0, 0, 0, 0] 16000 0,
      SchedOp.stop]).queue = [] := rfl
  rw [show schedStep (SchedOp.ended 1)
        (runSched [SchedOp.chunk [0, 0, 0, 0] 16000 0, SchedOp.stop])
      = playNextInQueue 1
        (runSched [SchedOp.chunk [0, 0, 0, 0] 16000 0, SchedOp.stop]) from rfl,
     playNextInQueue_empty 1 _ hq] at h
  have := congrArg (fun t => t.aiNotifs.length) h
  simp at this

/-- C7 amended: `stopCapture` clears the queue and releases the playback sink;
a completion callback firing after teardown starts no new buffer and enqueues
nothing (the queue stays empty and the `started` log is unchanged), but it is
not a complete no-op — lacking any generation guard it still resets the
playing flag and fires an `onAiSpeakingChange(false)` notification. -/
theorem stopCapture_callback_spec (s : Sched) (now : ℚ) :
    (stopCaptureSched s).queue = []
    ∧ (stopCaptureSched s).sinkOpen = false
    ∧ schedStep (SchedOp.ended now) (stopCaptureSched s)
        = { stopCaptureSched s with
            isPlaying := false,
            aiNotifs := (stopCaptureSched s).aiNotifs ++ [false] } := by
  refine ⟨rfl, rfl, ?_⟩
  exact playNextInQueue_empty now (stopCaptureSched s) rfl

/-- The scheduling invariant: every logged `start` call begins at or after the
end of every earlier one, all logged ends are below the timeline cursor
`nextPlayTime`, and every queued duration is nonnegative. -/
def schedInv (s : Sched) : Prop :=
  s.started.Pairwise (fun a b => a.1 + a.2 ≤ b.1)
  ∧ (∀ x ∈ s.started, x.1 + x.2 ≤ s.nextPlayTime)
  ∧ (∀ d ∈ s.queue, 0 ≤ d)

/-- `playNextInQueue` preserves the scheduling invariant. -/
theorem playNextInQueue_inv (now : ℚ) (s : Sched) (h : schedInv s) :
    schedInv (playNextInQueue now s) := by
  obtain ⟨hp, hb, hq⟩ := h
  obtain ⟨q, ip, npt, st, an, so⟩ := s
  cases q with
  | nil =>
      simp only [playNextInQueue]
      exact ⟨hp, hb, by simp⟩
  | cons d rest =>
      simp only [playNextInQueue] at *
      refine ⟨?_, ?_, ?_⟩
      · rw [List.pairwise_append]
        refine ⟨hp, by simp, ?_⟩
        intro a ha b hbmem
        simp only [List.mem_singleton] at hbmem
        subst hbmem
        calc a.1 + a.2 ≤ npt := hb a ha
          _ ≤ max now npt := le_max_right _ _
      · intro x hx
        rcases List.mem_append.1 hx with hx | hx
        · have h1 : x.1 + x.2 ≤ npt := hb x hx
          have hd : 0 ≤ d := hq d (List.mem_cons_self _ _)
          calc x.1 + x.2 ≤ npt := h1
            _ ≤ max now npt := le_max_right _ _
            _ ≤ max now npt + d := le_add_of_nonneg_right hd
        · simp only [List.mem_singleton] at hx
          subst hx
          exact le_refl _
      · intro d' hd'
        exact hq d' (List.mem_cons_of_mem _ hd')

/-- `enqueueChunk` with a nonnegative duration preserves the invariant. -/
theorem enqueueChunk_inv (d now : ℚ) (hd : 0 ≤ d) (s : Sched)
    (h : schedInv s) : schedInv (enqueueChunk d now s) := by
  obtain ⟨hp, hb, hq⟩ := h
  have hq' : ∀ x ∈ s.queue ++ [d], 0 ≤ x := by
    intro x hx
    rcases List.mem_append.1 hx with hx | hx
    · exact hq x hx
    · simp only [List.mem_singleton] at hx; subst hx; exact hd
  simp only [enqueueChunk]
  split
  · exact ⟨hp, hb, hq'⟩
  · exact playNextInQueue_inv now _ ⟨hp, hb, hq'⟩

/-- Event hypotheses for the scheduler: inbound frames carry a nonnegative
sample rate (so buffer durations are nonnegative, as `AudioBuffer.duration`
always is). -/
def schedOpOk : SchedOp → Prop
  | .chunk _ sampleRate _ => 0 ≤ sampleRate
  | _ => True

/-- Every admissible event preserves the scheduling invariant. -/
theorem schedStep_inv (op : SchedOp) (hop : schedOpOk op) (s : Sched)
    (h : schedInv s) : schedInv (schedStep op s) := by
  cases op with
  | chunk data sampleRate now =>
      simp only [schedStep, playAudioChunkStep]
      have hrate : 0 ≤ sampleRate := hop
      cases playAudioChunkDecode data with
      | floats ws =>
          exact enqueueChunk_inv _ now (div_nonneg (Nat.cast_nonneg _) hrate) s h
      | int16s ss =>
          exact enqueueChunk_inv _ now (div_nonneg (Nat.cast_nonneg _) hrate) s h
      | dropped => exact h
  | ended now => exact playNextInQueue_inv now s h
  | stop =>
      obtain ⟨hp, hb, _⟩ := h
      exact ⟨hp, hb, by simp [schedStep, stopCaptureSched]⟩

/-- The invariant holds along any admissible run. -/
theorem runSched_inv_aux : ∀ (ops : List SchedOp) (s : Sched), schedInv s →
    (∀ op ∈ ops, schedOpOk op) →
    schedInv (ops.foldl (fun s op => schedStep op s) s) := by
  intro ops
  induction ops with
  | nil => intro s h _; exact h
  | cons op rest ih =>
      intro s h hops
      simp only [List.foldl_cons]
      exact ih _ (schedStep_inv op (hops op (List.mem_cons_self _ _)) s h)
        (fun o ho => hops o (List.mem_cons_of_mem _ ho))

/-- C3: along any run of inbound frames, completion callbacks and teardowns
(with nonnegative sample rates), every buffer is started at
`max(currentClockTime, nextPlayTime)` with `nextPlayTime` advanced to
`startTime + duration`, and the logged start calls are pairwise ordered:
each buffer's start time is at or after every earlier buffer's end time, so
no two scheduled play intervals overlap. -/
theorem playback_no_overlap (ops : List SchedOp)
    (hops : ∀ op ∈ ops, schedOpOk op) :
    ((runSched ops).started).Pairwise (fun a b => a.1 + a.2 ≤ b.1)
    ∧ (∀ (s : Sched) (now d : ℚ) (rest : List ℚ), s.queue = d :: rest →
        (playNextInQueue now s).started
          = s.started ++ [(max now s.nextPlayTime, d)]
        ∧ (playNextInQueue now s).nextPlayTime = max now s.nextPlayTime + d) := by
  constructor
  · exact (runSched_inv_aux ops initSched
      ⟨by simp [initSched], by simp [initSched], by simp [initSched]⟩ hops).1
  · intro s now d rest hqueue
    obtain ⟨q, ip, npt, st, an, so⟩ := s
    simp only at hqueue
    subst hqueue
    exact ⟨rfl, rfl⟩

/-- C3 witness: a concrete admissible run — one decoded frame then its
completion callback — has a pairwise-ordered start log, and popping a
singleton queue starts it at `max(now, nextPlayTime)`. -/
theorem playback_no_overlap_witness :
    ((runSched [SchedOp.chunk [0, 0, 0, 0] 16000 0,
                SchedOp.ended 1]).started).Pairwise
        (fun a b => a.1 + a.2 ≤ b.1)
    ∧ (playNextInQueue 2 { initSched with queue := [5] }).started
        = ({ initSched with queue := [5] } : Sched).started
            ++ [(max 2 ({ initSched with queue := [5] } : Sched).nextPlayTime,
                 5)] :=
  ⟨(playback_no_overlap _ (by
      intro op hop
      fin_cases hop <;> simp [schedOpOk])).1,
   ((playback_no_overlap [] (by simp)).2
      { initSched with queue := [5] } 2 5 [] rfl).1⟩

/-- The output length of the resampler. -/
theorem downsample_length (input : List ℚ) (sourceRate targetRate : ℚ) :
    (downsample input sourceRate targetRate).length
      = (⌊(input.length : ℚ) / (sourceRate / targetRate)⌋).toNat := by
  simp [downsample]

/-- C1: for rates `R_s, R_t > 0` the resampler output has length
`⌊L / (R_s/R_t)⌋`, a zero-length input yields a zero-length output, and output
sample `i` is the linear interpolation `input[f]·(1−frac) + input[c]·frac`
with `p = i·(R_s/R_t)`, `f = ⌊p⌋`, `c = min(f+1, L−1)`, `frac = p − ⌊p⌋`. -/
theorem downsample_spec (input : List ℚ) (sourceRate targetRate : ℚ)
    (hs : 0 < sourceRate) (ht : 0 < targetRate) :
    (downsample input sourceRate targetRate).length
      = (⌊(input.length : ℚ) / (sourceRate / targetRate)⌋).toNat
    ∧ 0 ≤ ⌊(input.length : ℚ) / (sourceRate / targetRate)⌋
    ∧ (input = [] → downsample input sourceRate targetRate = [])
    ∧ ∀ i : Nat, i < (downsample input sourceRate targetRate).length →
        (downsample input sourceRate targetRate).getD i 0
          = input.getD (⌊(i : ℚ) * (sourceRate / targetRate)⌋).toNat 0
              * (1 - ((i : ℚ) * (sourceRate / targetRate)
                      - ((⌊(i : ℚ) * (sourceRate / targetRate)⌋ : ℤ) : ℚ)))
            + input.getD
                (min ((⌊(i : ℚ) * (sourceRate / targetRate)⌋).toNat + 1)
                     (input.length - 1)) 0
              * ((i : ℚ) * (sourceRate / targetRate)
                 - ((⌊(i : ℚ) * (sourceRate / targetRate)⌋ : ℤ) : ℚ)) := by
  refine ⟨downsample_length input sourceRate targetRate, ?_, ?_, ?_⟩
  · exact Int.floor_nonneg.2
      (div_nonneg (Nat.cast_nonneg _) (div_pos hs ht).le)
  · intro h
    subst h
    simp [downsample]
  · intro i hi
    rw [downsample_length] at hi
    simp only [downsample]
    rw [List.getD_eq_getElem?_getD, List.getElem?_map, List.getElem?_range hi]
    simp

/-- C1 witness: a 6-sample block at 48000→16000 Hz (ratio 3) has
`⌊6/3⌋ = 2` output samples. -/
theorem downsample_spec_witness :
    (downsample [1, 2, 3, 4, 5, 6] 48000 16000).length = 2 := by
  rw [(downsample_spec [1, 2, 3, 4, 5, 6] 48000 16000 (by norm_num)
        (by norm_num)).1]
  norm_num
  decide

/-- C9: every output sample of the resampler is a convex combination of two
input samples, hence lies within any bounds enclosing the input — in
particular within `[min input, max input]` and, for inputs within `[-1, 1]`,
within `[-1, 1]`. -/
theorem downsample_bounds (input : List ℚ) (sourceRate targetRate lo hi : ℚ)
    (hs : 0 < sourceRate) (ht : 0 < targetRate)
    (hb : ∀ y ∈ input, lo ≤ y ∧ y ≤ hi) :
    ∀ x ∈ downsample input sourceRate targetRate, lo ≤ x ∧ x ≤ hi := by
  intro x hx
  have hr : 0 < sourceRate / targetRate := div_pos hs ht
  simp only [downsample, List.mem_map, List.mem_range] at hx
  obtain ⟨i, hi, rfl⟩ := hx
  have hiz : ((i : ℤ))
      < ⌊(input.length : ℚ) / (sourceRate / targetRate)⌋ := by omega
  have hstep : ((i : ℚ) + 1) * (sourceRate / targetRate)
      ≤ (input.length : ℚ) := by
    rw [← le_div_iff₀ hr]
    have h1 : ((i : ℚ) + 1)
        ≤ (⌊(input.length : ℚ) / (sourceRate / targetRate)⌋ : ℚ) := by
      have h2 : (i : ℤ) + 1
          ≤ ⌊(input.length : ℚ) / (sourceRate / targetRate)⌋ := hiz
      exact_mod_cast h2
    calc ((i : ℚ) + 1)
        ≤ (⌊(input.length : ℚ) / (sourceRate / targetRate)⌋ : ℚ) := h1
      _ ≤ (input.length : ℚ) / (sourceRate / targetRate) := Int.floor_le _
  have hpL : (i : ℚ) * (sourceRate / targetRate) < (input.length : ℚ) := by
    nlinarith
  have hp0 : 0 ≤ (i : ℚ) * (sourceRate / targetRate) :=
    mul_nonneg (Nat.cast_nonneg i) (le_of_lt hr)
  have hf0 : 0 ≤ ⌊(i : ℚ) * (sourceRate / targetRate)⌋ := Int.floor_nonneg.2 hp0
  have hfcast : (((⌊(i : ℚ) * (sourceRate / targetRate)⌋).toNat : ℚ))
      = ((⌊(i : ℚ) * (sourceRate / targetRate)⌋ : ℤ) : ℚ) := by
    exact_mod_cast congrArg (fun t : ℤ => (t : ℚ)) (Int.toNat_of_nonneg hf0)
  have hfle : (((⌊(i : ℚ) * (sourceRate / targetRate)⌋).toNat : ℚ))
      ≤ (i : ℚ) * (sourceRate / targetRate) := by
    rw [hfcast]
    exact Int.floor_le _
  have hfL : (⌊(i : ℚ) * (sourceRate / targetRate)⌋).toNat < input.length := by
    by_contra hcon
    push_neg at hcon
    have hcast : (input.length : ℚ)
        ≤ (((⌊(i : ℚ) * (sourceRate / targetRate)⌋).toNat : ℚ)) := by
      exact_mod_cast hcon
    linarith
  have hL1 : 1 ≤ input.length := by omega
  have hcL : min ((⌊(i : ℚ) * (sourceRate / targetRate)⌋).toNat + 1)
      (input.length - 1) < input.length := by omega
  have hmem1 : input.getD ((⌊(i : ℚ) * (sourceRate / targetRate)⌋).toNat) 0
      ∈ input := by
    rw [List.getD_eq_getElem input 0 hfL]
    exact List.getElem_mem _
  have hmem2 : input.getD
      (min ((⌊(i : ℚ) * (sourceRate / targetRate)⌋).toNat + 1)
           (input.length - 1)) 0 ∈ input := by
    rw [List.getD_eq_getElem input 0 hcL]
    exact List.getElem_mem _
  obtain ⟨ha1, ha2⟩ := hb _ hmem1
  obtain ⟨hb1, hb2⟩ := hb _ hmem2
  have hfr0 : 0 ≤ (i : ℚ) * (sourceRate / targetRate)
      - ((⌊(i : ℚ) * (sourceRate / targetRate)⌋ : ℤ) : ℚ) := by
    have := Int.floor_le ((i : ℚ) * (sourceRate / targetRate))
    linarith
  have hfr1 : (i : ℚ) * (sourceRate / targetRate)
      - ((⌊(i : ℚ) * (sourceRate / targetRate)⌋ : ℤ) : ℚ) ≤ 1 := by
    have := Int.lt_floor_add_one ((i : ℚ) * (sourceRate / targetRate))
    linarith
  constructor
  · nlinarith [mul_nonneg (sub_nonneg.2 ha1) (by linarith :
        (0 : ℚ) ≤ 1 - ((i : ℚ) * (sourceRate / targetRate)
          - ((⌊(i : ℚ) * (sourceRate / targetRate)⌋ : ℤ) : ℚ))),
      mul_nonneg (sub_nonneg.2 hb1) hfr0]
  · nlinarith [mul_nonneg (sub_nonneg.2 ha2) (by linarith :
        (0 : ℚ) ≤ 1 - ((i : ℚ) * (sourceRate / targetRate)
          - ((⌊(i : ℚ) * (sourceRate / targetRate)⌋ : ℤ) : ℚ))),
      mul_nonneg (sub_nonneg.2 hb2) hfr0]

/-- C9 witness: the first output sample of resampling `[1, -1, 1/2]` at
48000→16000 Hz lies within `[-1, 1]`. -/
theorem downsample_bounds_witness :
    -1 ≤ (downsample [1, -1, 1/2] 48000 16000).getD 0 0
    ∧ (downsample [1, -1, 1/2] 48000 16000).getD 0 0 ≤ 1 := by
  have hlen : 0 < (downsample [1, -1, 1/2] 48000 16000).length := by
    rw [downsample_length]
    norm_num
  have hmem : (downsample [1, -1, 1/2] 48000 16000).getD 0 0
      ∈ downsample [1, -1, 1/2] 48000 16000 := by
    rw [List.getD_eq_getElem _ _ hlen]
    exact List.getElem_mem _
  exact downsample_bounds [1, -1, 1/2] 48000 16000 (-1) 1 (by norm_num)
    (by norm_num) (by intro y hy; fin_cases hy <;> norm_num) _ hmem
